import Mathlib

/-!
Shallow embedding of the fortress-hivemind turn-taking log protocol
(`agents/base.py`, `agents/deep_agent.py`, `agents/gemini.py`,
`agents/jules.py`) and the mailbox artifact store (`src/server.py`).

Text is modelled as `List Char`; Python strings map to `String.data`.
-/

namespace Hivemind

/-- The ASCII whitespace characters recognised by Python's `str.strip()`
and `str.isspace` relevant here (the log protocol only ever produces
ASCII whitespace). -/
def isSpaceChar (c : Char) : Bool :=
  c = ' ' || c = '\t' || c = '\n' || c = '\r' || c = '\x0b' || c = '\x0c'

/-- Python `s.strip()`: drop whitespace from both ends. -/
def pyStrip (l : List Char) : List Char :=
  ((l.dropWhile isSpaceChar).reverse.dropWhile isSpaceChar).reverse

/-- Python `not line.strip()`: the line is empty or whitespace-only. -/
def isBlank (l : List Char) : Bool :=
  (pyStrip l).isEmpty

/-- Python `text.split('\n')` (always returns at least one piece;
`"".split('\n') == [""]`). -/
def splitLines : List Char → List (List Char)
  | [] => [[]]
  | c :: rest =>
      let r := splitLines rest
      if c = '\n' then [] :: r
      else (c :: r.headI) :: r.tail

/-- Python `"\n".join(parts)`. -/
def joinNL : List (List Char) → List Char
  | [] => []
  | [l] => l
  | l :: ls => l ++ '\n' :: joinNL ls

/-- Whether the string contains two adjacent `'*'` characters
(the literal `**`). -/
def containsStarStar : List Char → Bool
  | [] => false
  | [_] => false
  | a :: b :: t => (a = '*' && b = '*') || containsStarStar (b :: t)

/-- Whether the string starts with the four characters `**: ` that
terminate the speaker capture of the regex `\*\*(.+?)\*\*: (.*)`. -/
def startsWithMarkerSep : List Char → Bool
  | a :: b :: c :: d :: _ => a = '*' && b = '*' && c = ':' && d = ' '
  | _ => false

/-- Scan for the leftmost occurrence of `**: `; on success return the
characters before it and the characters after it.  This implements the
non-greedy search done by `(.+?)\*\*: ` in
`DeepAgent._parse_history` (deep_agent.py line 28), applied after the
first captured character. -/
def splitAtMarker : List Char → Option (List Char × List Char)
  | [] => none
  | ch :: rest =>
      if startsWithMarkerSep (ch :: rest) then some ([], rest.drop 3)
      else (splitAtMarker rest).map (fun p => (ch :: p.1, p.2))

/-- Python `re.match(r"\*\*(.+?)\*\*: (.*)", line)`: the line must start
with `**`, then a non-empty, shortest-possible speaker capture, then
`**: `, then the rest of the line.  Returns `(speaker, content)`. -/
def matchMarker : List Char → Option (List Char × List Char)
  | a :: b :: ch :: rest =>
      if a = '*' && b = '*' then
        (splitAtMarker rest).map (fun p => (ch :: p.1, p.2))
      else none
  | _ => none

/-- A parsed turn.  `role` and `content` are exactly the fields of the
dicts built by `DeepAgent._parse_history`; `speaker` is the value of the
regex capture `match.groups()[0]` computed at deep_agent.py line 30 (the
code uses it to derive `role` at line 35 and then discards it; it is kept
here so that the spec's speaker-level properties can be stated). -/
structure Turn where
  speaker : List Char
  role : String
  content : List Char
  deriving DecidableEq, Repr

/-- The message dict actually sent to the completion API:
`{"role": ..., "content": ...}`. -/
structure ChatMsg where
  role : String
  content : List Char
  deriving DecidableEq, Repr

def Turn.toChatMsg (t : Turn) : ChatMsg := ⟨t.role, t.content⟩

/-- deep_agent.py line 35: `"assistant" if speaker == self.name else "user"`. -/
def roleFor (name speaker : List Char) : String :=
  if speaker = name then "assistant" else "user"

/-- The loop body of `DeepAgent._parse_history` (deep_agent.py lines
24-42), with state `(parts, role, speaker)` for `current_msg_parts`,
`current_role` and the last captured speaker. -/
def parseLines (name : List Char) :
    List (List Char) → List (List Char) → String → List Char → List Turn
  | [], parts, role, sp =>
      if parts.isEmpty then [] else [⟨sp, role, pyStrip (joinNL parts)⟩]
  | line :: rest, parts, role, sp =>
      if isBlank line then parseLines name rest parts role sp
      else
        match matchMarker line with
        | some (speaker, content) =>
            if parts.isEmpty then
              parseLines name rest [content] (roleFor name speaker) speaker
            else
              ⟨sp, role, pyStrip (joinNL parts)⟩ ::
                parseLines name rest [content] (roleFor name speaker) speaker
        | none => parseLines name rest (parts ++ [line]) role sp

/-- `DeepAgent._parse_history(history)` with the acting agent's display
name, keeping the captured speaker of each turn (see `Turn`). -/
def parseHistory (name h : List Char) : List Turn :=
  parseLines name (splitLines h) [] "user" []

/-- A log entry as appended by `BaseAgent.append_to_log`. -/
structure LogEntry where
  speaker : List Char
  content : List Char
  deriving DecidableEq, Repr

/-- base.py line 75: `f"\n\n**{self.name}**: {message}\n"`. -/
def serializeEntry (e : LogEntry) : List Char :=
  '\n' :: '\n' :: '*' :: '*' ::
    (e.speaker ++ '*' :: '*' :: ':' :: ' ' :: (e.content ++ ['\n']))

/-- The log text produced by appending each entry in order to an
initially empty log. -/
def serializeLog (es : List LogEntry) : List Char :=
  (es.map serializeEntry).flatten

/-- base.py line 108: `f"**{self.name}**"`. -/
def selfMarker (name : List Char) : List Char :=
  '*' :: '*' :: (name ++ ['*', '*'])

/-- base.py lines 107-108: `last_lines = history.strip().split('\n')`,
`if last_lines and last_lines[-1].startswith(f"**{self.name}**")`. -/
def guardTrips (name h : List Char) : Bool :=
  let ls := splitLines (pyStrip h)
  !ls.isEmpty && (selfMarker name).isPrefixOf (ls.getLastD [])

/-- Observable outcome of one `BaseAgent.process` cycle: how many times
`generate_response` was called, how many times `append_to_log` was
called, how many times `commit_and_push` was called, and the resulting
log text. -/
structure CycleResult where
  responderCalls : Nat
  appends : Nat
  pushes : Nat
  log : List Char
  deriving DecidableEq, Repr

/-- `BaseAgent.process` (base.py lines 91-124) after the sync step,
starting from log text `history`, with `respond` standing for the
agent's `generate_response`.  `git` effects are abstracted into the
`pushes` count. -/
def processModel (name history : List Char) (respond : List Char → List Char) :
    CycleResult :=
  if guardTrips name history then ⟨0, 0, 0, history⟩
  else
    let response := respond history
    if response.isEmpty then ⟨1, 0, 0, history⟩
    else ⟨1, 1, 1, history ++ serializeEntry ⟨name, response⟩⟩

/-- deep_agent.py lines 45-47: parse the history and seed with the
default greeting when no messages were parsed. -/
def deepBuildMessages (name h : List Char) : List ChatMsg :=
  let ms := (parseHistory name h).map Turn.toChatMsg
  if ms.isEmpty then [⟨"user", "Hello.".data⟩] else ms

/-- `DeepAgent.generate_response` (deep_agent.py lines 44-60): the chat
API call is abstracted as a function from the message list to either the
reply text or an `APIError` message `e`; the except-branch returns
`f"Error communicating with Deep Agent: {e}"`. -/
def deepGenerateResponse (name h : List Char)
    (api : List ChatMsg → Except (List Char) (List Char)) : List Char :=
  match api (deepBuildMessages name h) with
  | .ok text => text
  | .error e => "Error communicating with Deep Agent: ".data ++ e

/-- Python truthiness of `self.api_key` (a string or `None`). -/
def pyTruthyStr : Option (List Char) → Bool
  | none => false
  | some s => !s.isEmpty

/-- `GeminiRaw.generate_response` (gemini.py lines 15-50).  The HTTP
call is abstracted as `outcome`: `.error e` is a raised exception with
message `e`, `.ok (some text)` a response whose candidate text extracts,
`.ok none` a response hitting the `KeyError/IndexError` branch. -/
def geminiRawGenerateResponse (apiKey : Option (List Char))
    (outcome : Except (List Char) (Option (List Char))) : List Char :=
  if !pyTruthyStr apiKey then "Error: Missing GEMINI_API_KEY".data
  else
    match outcome with
    | .ok (some text) => text
    | .ok none => "Error parsing response.".data
    | .error e => "Error: ".data ++ e

/-- `Jules.generate_response` (jules.py lines 24-45): on success the
reply text is stripped and the literal `[NO REPLY]` is mapped to the
empty string; a raised exception with message `e` yields
`f"Error: {e}"`. -/
def julesGenerateResponse (outcome : Except (List Char) (List Char)) :
    List Char :=
  match outcome with
  | .ok text =>
      let t := pyStrip text
      if t = "[NO REPLY]".data then [] else t
  | .error e => "Error: ".data ++ e

/-- `l` is the last line of `h` that contains a non-whitespace
character: `h` decomposes as `a ++ l ++ b` where `l` is newline-free and
non-blank, `l` starts at the beginning of `h` or right after a newline,
and everything after `l` is whitespace (so every later line is blank). -/
def IsLastNonBlankLine (h l : List Char) : Prop :=
  ∃ a b, h = a ++ l ++ b ∧ '\n' ∉ l ∧ isBlank l = false ∧
    (a = [] ∨ a.getLast? = some '\n') ∧
    b.all isSpaceChar = true ∧ (b = [] ∨ b.head? = some '\n')

/-- Well-formedness of a `LogEntry` under which serialisation is
lossless: the speaker is non-empty, has no newline and no literal `**`;
no line of the content matches the turn-marker regex; and no line of the
content after its first line is whitespace-only. -/
def WellFormedEntry (e : LogEntry) : Prop :=
  e.speaker ≠ [] ∧ '\n' ∉ e.speaker ∧ containsStarStar e.speaker = false ∧
  (∀ l ∈ splitLines e.content, matchMarker l = none) ∧
  (∀ l ∈ (splitLines e.content).tail, isBlank l = false)

instance (e : LogEntry) : Decidable (WellFormedEntry e) := by
  unfold WellFormedEntry; infer_instance

/-- A YAML scalar/collection value as handled by
`BaseAgent._resolve_env_vars` (base.py lines 29-38): strings, `None`,
dicts and lists; other scalars are returned unchanged by the code and
are irrelevant to the claims. -/
inductive ConfigValue where
  | str : List Char → ConfigValue
  | vnone : ConfigValue
  | dict : List (List Char × ConfigValue) → ConfigValue
  | vlist : List ConfigValue → ConfigValue

/-- Python `config.split("/", 1)[1]`: everything after the first `/`
(total here; the caller only uses it under an `os.environ/` prefix
guard, which guarantees a slash exists). -/
def afterFirstSlash : List Char → List Char
  | [] => []
  | c :: rest => if c = '/' then rest else afterFirstSlash rest

mutual

/-- `BaseAgent._resolve_env_vars` (base.py lines 29-38): recursively
replace every string of the form `os.environ/VAR` by `os.getenv(VAR)`
(which is `None` when the variable is unset). -/
def resolveEnvVars (env : List Char → Option (List Char)) :
    ConfigValue → ConfigValue
  | .dict kvs => .dict (resolveKVs env kvs)
  | .vlist vs => .vlist (resolveVals env vs)
  | .str s =>
      if ("os.environ/".data).isPrefixOf s then
        match env (afterFirstSlash s) with
        | some v => .str v
        | none => .vnone
      else .str s
  | .vnone => .vnone

def resolveKVs (env : List Char → Option (List Char)) :
    List (List Char × ConfigValue) → List (List Char × ConfigValue)
  | [] => []
  | (k, v) :: rest => (k, resolveEnvVars env v) :: resolveKVs env rest

def resolveVals (env : List Char → Option (List Char)) :
    List ConfigValue → List ConfigValue
  | [] => []
  | v :: rest => resolveEnvVars env v :: resolveVals env rest

end

/-- `BaseAgent._load_config` (base.py lines 22-27): raise
`FileNotFoundError` when the config file is absent, else parse it and
resolve environment-variable placeholders.  The filesystem read and
YAML parse are abstracted into the `Option ConfigValue` argument. -/
def loadConfig (file : Option ConfigValue)
    (env : List Char → Option (List Char)) : Except (List Char) ConfigValue :=
  match file with
  | none => .error "Config file not found".data
  | some c => .ok (resolveEnvVars env c)

/-- A resolved per-agent config section, as a key/value association
list; a `none` value is Python `None` (e.g. an `os.environ/` placeholder
whose variable was unset). -/
def dictGet (cfg : List (List Char × Option (List Char))) (k : List Char) :
    Option (Option (List Char)) :=
  match cfg with
  | [] => none
  | (k', v) :: rest => if k' = k then some v else dictGet rest k

/-- `DeepAgent.__init__` (deep_agent.py lines 9-15): the subscript
`self.agent_config["api_key"]` raises `KeyError` when the key is absent;
otherwise construction proceeds with that value. -/
def deepAgentInit (cfg : List (List Char × Option (List Char))) :
    Except (List Char) (Option (List Char)) :=
  match dictGet cfg "api_key".data with
  | none => .error "KeyError: api_key".data
  | some v => .ok v

/-- `GeminiRaw.__init__` (gemini.py lines 10-13): `self.api_key =
self.agent_config.get("api_key")` never raises; an absent key and a
`None` value both leave `api_key` falsy. -/
def geminiRawInit (cfg : List (List Char × Option (List Char))) :
    Except (List Char) (Option (List Char)) :=
  .ok (Option.join (dictGet cfg "api_key".data))

/-- `Jules.__init__` (jules.py lines 9-22): a missing key only logs a
warning ("API key not found for Jules. Check config/env."); construction
succeeds either way. -/
def julesInit (cfg : List (List Char × Option (List Char))) :
    Except (List Char) (Option (List Char)) :=
  .ok (Option.join (dictGet cfg "api_key".data))

/-- The artifact directory of `src/server.py`, modelled as an
association list from `(job_id, filename)` to file content, most recent
write first. -/
abbrev ArtifactStore : Type := List ((List Char × List Char) × List Char)

/-- `store_artifact` (server.py lines 91-103): `file_path.write_text(content)`
creates or truncates-and-overwrites the file unconditionally. -/
def storeArtifact (fs : ArtifactStore) (jobId filename content : List Char) :
    ArtifactStore :=
  ((jobId, filename), content) :: fs

/-- Reading an artifact back: the content of the most recent write to
that `(job_id, filename)` path, if any. -/
def readArtifact (fs : ArtifactStore) (jobId filename : List Char) :
    Option (List Char) :=
  match fs with
  | [] => none
  | (p, c) :: rest =>
      if p = (jobId, filename) then some c else readArtifact rest jobId filename

/-! ### Helper lemmas -/

theorem splitLines_nil : splitLines [] = [[]] := rfl

theorem splitLines_cons_newline (x : List Char) :
    splitLines ('\n' :: x) = [] :: splitLines x := by
  simp [splitLines]

theorem splitLines_cons_of_ne (c : Char) (x : List Char) (h : c ≠ '\n') :
    splitLines (c :: x) = (c :: (splitLines x).headI) :: (splitLines x).tail := by
  simp [splitLines, h]

theorem splitLines_ne_nil (x : List Char) : splitLines x ≠ [] := by
  cases x with
  | nil => simp [splitLines]
  | cons c rest =>
      by_cases h : c = '\n'
      · subst h; simp [splitLines_cons_newline]
      · simp [splitLines_cons_of_ne c rest h]

theorem headI_cons_tail {α : Type} [Inhabited α] (l : List α) (h : l ≠ []) :
    l.headI :: l.tail = l := by
  cases l with
  | nil => exact absurd rfl h
  | cons a t => rfl

theorem splitLines_no_newline (x : List Char) (h : '\n' ∉ x) :
    splitLines x = [x] := by
  induction x with
  | nil => rfl
  | cons c rest ih =>
      have hc : c ≠ '\n' := fun hc => h (hc ▸ List.mem_cons_self c rest)
      have hr : '\n' ∉ rest := fun hr => h (List.mem_cons_of_mem c hr)
      rw [splitLines_cons_of_ne c rest hc, ih hr]
      rfl

theorem splitLines_append (x y : List Char) :
    splitLines (x ++ '\n' :: y) = splitLines x ++ splitLines y := by
  induction x with
  | nil => simp [splitLines_cons_newline, splitLines_nil]
  | cons c rest ih =>
      by_cases hc : c = '\n'
      · subst hc
        rw [List.cons_append, splitLines_cons_newline, splitLines_cons_newline, ih]
        rfl
      · rw [List.cons_append, splitLines_cons_of_ne c _ hc,
          splitLines_cons_of_ne c rest hc, ih]
        have hne := splitLines_ne_nil rest
        rw [List.tail_append_of_ne_nil hne]
        cases hsl : splitLines rest with
        | nil => exact absurd hsl hne
        | cons a t => simp

theorem splitLines_prefix_no_newline (p x : List Char) (h : '\n' ∉ p) :
    splitLines (p ++ x) = (p ++ (splitLines x).headI) :: (splitLines x).tail := by
  induction p with
  | nil =>
      simp only [List.nil_append]
      exact (headI_cons_tail _ (splitLines_ne_nil x)).symm
  | cons c rest ih =>
      have hc : c ≠ '\n' := fun hc => h (hc ▸ List.mem_cons_self c rest)
      have hr : '\n' ∉ rest := fun hr => h (List.mem_cons_of_mem c hr)
      rw [List.cons_append, splitLines_cons_of_ne c _ hc, ih hr]
      simp

theorem mem_splitLines_no_newline (x : List Char) :
    ∀ l ∈ splitLines x, '\n' ∉ l := by
  induction x with
  | nil => intro l hl; simp [splitLines] at hl; simp [hl]
  | cons c rest ih =>
      intro l hl
      by_cases hc : c = '\n'
      · subst hc
        rw [splitLines_cons_newline] at hl
        rcases List.mem_cons.mp hl with h1 | h1
        · simp [h1]
        · exact ih l h1
      · rw [splitLines_cons_of_ne c rest hc] at hl
        obtain ⟨hh, tt, hx⟩ : ∃ hh tt, splitLines rest = hh :: tt := by
          cases hsl : splitLines rest with
          | nil => exact absurd hsl (splitLines_ne_nil rest)
          | cons a t => exact ⟨a, t, rfl⟩
        rw [hx] at hl
        simp only [List.headI_cons, List.tail_cons] at hl
        rcases List.mem_cons.mp hl with h1 | h1
        · subst h1
          intro hmem
          rcases List.mem_cons.mp hmem with h2 | h2
          · exact hc h2.symm
          · exact ih hh (hx ▸ List.mem_cons_self hh tt) h2
        · exact ih l (hx ▸ List.mem_cons_of_mem hh h1)

theorem joinNL_cons (a : Char) (h : List Char) (t : List (List Char)) :
    joinNL ((a :: h) :: t) = a :: joinNL (h :: t) := by
  cases t with
  | nil => rfl
  | cons t0 t' => simp [joinNL]

theorem joinNL_cons_cons (l t0 : List Char) (t' : List (List Char)) :
    joinNL (l :: t0 :: t') = l ++ '\n' :: joinNL (t0 :: t') := rfl

theorem joinNL_splitLines (x : List Char) : joinNL (splitLines x) = x := by
  induction x with
  | nil => rfl
  | cons c rest ih =>
      obtain ⟨hh, tt, hx⟩ : ∃ hh tt, splitLines rest = hh :: tt := by
        cases hsl : splitLines rest with
        | nil => exact absurd hsl (splitLines_ne_nil rest)
        | cons a t => exact ⟨a, t, rfl⟩
      rw [hx] at ih
      by_cases hc : c = '\n'
      · subst hc
        rw [splitLines_cons_newline, hx, joinNL_cons_cons, ih]
        rfl
      · rw [splitLines_cons_of_ne c rest hc, hx]
        simp only [List.headI_cons, List.tail_cons]
        rw [joinNL_cons, ih]

theorem isBlank_iff_all {l : List Char} :
    isBlank l = true ↔ l.all isSpaceChar = true := by
  unfold isBlank pyStrip
  rw [List.isEmpty_iff, List.reverse_eq_nil_iff, List.dropWhile_eq_nil_iff]
  constructor
  · intro h
    rw [List.all_eq_true]
    intro x hx
    conv at hx => rw [← List.takeWhile_append_dropWhile (p := isSpaceChar) (l := l)]
    rcases List.mem_append.mp hx with h1 | h1
    · exact List.mem_takeWhile_imp h1
    · exact h x (List.mem_reverse.mpr h1)
  · intro h x hx
    rw [List.all_eq_true] at h
    exact h x ((List.dropWhile_suffix isSpaceChar).sublist.mem (List.mem_reverse.mp hx))

theorem isBlank_eq_false_iff {l : List Char} :
    isBlank l = false ↔ ¬ l.all isSpaceChar = true := by
  rw [← isBlank_iff_all]
  cases h : isBlank l <;> simp [h]

theorem isBlank_nil : isBlank [] = true := rfl

theorem isBlank_cons_star (xs : List Char) : isBlank ('*' :: xs) = false := by
  rw [isBlank_eq_false_iff]
  intro h
  rw [List.all_eq_true] at h
  have := h '*' (List.mem_cons_self _ _)
  simp [isSpaceChar] at this

theorem containsStarStar_cons_cons (a b : Char) (t : List Char) :
    containsStarStar (a :: b :: t)
      = ((a = '*' && b = '*') || containsStarStar (b :: t)) := rfl

theorem containsStarStar_tail {a : Char} {t : List Char}
    (h : containsStarStar (a :: t) = false) : containsStarStar t = false := by
  cases t with
  | nil => rfl
  | cons b t' =>
      rw [containsStarStar_cons_cons] at h
      exact (Bool.or_eq_false_iff.mp h).2

theorem startsWithMarkerSep_false_of_pair {a b : Char} (r : List Char)
    (h : ¬(a = '*' ∧ b = '*')) : startsWithMarkerSep (a :: b :: r) = false := by
  match r with
  | [] => rfl
  | [x] => rfl
  | x :: y :: r' =>
      show (a = '*' && b = '*' && (x = ':') && (y = ' ')) = false
      rcases Decidable.em (a = '*') with ha | ha
      · rcases Decidable.em (b = '*') with hb | hb
        · exact absurd ⟨ha, hb⟩ h
        · simp [ha, hb]
      · simp [ha]

theorem splitAtMarker_sep (c : List Char) :
    splitAtMarker ('*' :: '*' :: ':' :: ' ' :: c) = some ([], c) := by
  simp [splitAtMarker, startsWithMarkerSep]

theorem splitAtMarker_cons {ch : Char} {rest : List Char}
    (h : startsWithMarkerSep (ch :: rest) = false) :
    splitAtMarker (ch :: rest)
      = (splitAtMarker rest).map (fun p => (ch :: p.1, p.2)) := by
  simp [splitAtMarker, h]

theorem splitAtMarker_no_star (s c : List Char)
    (h : containsStarStar s = false) :
    splitAtMarker (s ++ '*' :: '*' :: ':' :: ' ' :: c) = some (s, c) := by
  induction s with
  | nil => exact splitAtMarker_sep c
  | cons ch s' ih =>
      have hs' : containsStarStar s' = false := containsStarStar_tail h
      have hsw : startsWithMarkerSep
          (ch :: (s' ++ '*' :: '*' :: ':' :: ' ' :: c)) = false := by
        cases s' with
        | nil =>
            show ((ch = '*') && ('*' = '*') && ('*' = ':') && (':' = ' ')) = false
            simp
        | cons d t' =>
            have hpair : ¬(ch = '*' ∧ d = '*') := by
              intro ⟨h1, h2⟩
              rw [containsStarStar_cons_cons, h1, h2] at h
              simp at h
            rw [List.cons_append]
            exact startsWithMarkerSep_false_of_pair _ hpair
      rw [List.cons_append, splitAtMarker_cons hsw, ih hs']
      rfl

theorem matchMarker_serialized (s c : List Char) (h1 : s ≠ [])
    (h2 : containsStarStar s = false) :
    matchMarker ('*' :: '*' :: (s ++ '*' :: '*' :: ':' :: ' ' :: c))
      = some (s, c) := by
  cases s with
  | nil => exact absurd rfl h1
  | cons ch s' =>
      have hs' : containsStarStar s' = false := containsStarStar_tail h2
      rw [List.cons_append]
      show (if ('*' = '*' && '*' = '*') = true then
        (splitAtMarker (s' ++ '*' :: '*' :: ':' :: ' ' :: c)).map
          (fun p => (ch :: p.1, p.2)) else none) = some (ch :: s', c)
      rw [if_pos (by simp), splitAtMarker_no_star s' c hs']
      rfl

theorem parseLines_nil (name : List Char) (parts : List (List Char))
    (role : String) (sp : List Char) :
    parseLines name [] parts role sp
      = if parts.isEmpty then [] else [⟨sp, role, pyStrip (joinNL parts)⟩] := rfl

theorem parseLines_blank {line : List Char} (hb : isBlank line = true)
    (name : List Char) (rest : List (List Char)) (parts : List (List Char))
    (role : String) (sp : List Char) :
    parseLines name (line :: rest) parts role sp
      = parseLines name rest parts role sp := by
  simp [parseLines, hb]

theorem parseLines_marker {line s c : List Char} (hb : isBlank line = false)
    (hm : matchMarker line = some (s, c)) (name : List Char)
    (rest : List (List Char)) (parts : List (List Char)) (role : String)
    (sp : List Char) :
    parseLines name (line :: rest) parts role sp
      = (if parts.isEmpty then [] else [⟨sp, role, pyStrip (joinNL parts)⟩])
        ++ parseLines name rest [c] (roleFor name s) s := by
  by_cases hp : parts.isEmpty <;> simp [parseLines, hb, hm, hp]

theorem parseLines_other {line : List Char} (hb : isBlank line = false)
    (hm : matchMarker line = none) (name : List Char)
    (rest : List (List Char)) (parts : List (List Char)) (role : String)
    (sp : List Char) :
    parseLines name (line :: rest) parts role sp
      = parseLines name rest (parts ++ [line]) role sp := by
  simp [parseLines, hb, hm]

theorem parseLines_content_append (name : List Char) (L : List (List Char))
    (hL : ∀ l ∈ L, isBlank l = false ∧ matchMarker l = none) :
    ∀ (rest : List (List Char)) (parts : List (List Char)) (role : String)
      (sp : List Char),
    parseLines name (L ++ rest) parts role sp
      = parseLines name rest (parts ++ L) role sp := by
  induction L with
  | nil => intro rest parts role sp; simp
  | cons l L' ih =>
      intro rest parts role sp
      have hl := hL l (List.mem_cons_self _ _)
      rw [List.cons_append, parseLines_other hl.1 hl.2,
        ih (fun x hx => hL x (List.mem_cons_of_mem l hx))]
      simp

/-- The crux of the round-trip property: running the parser loop over
the serialisation of well-formed entries flushes the pending turn (if
any) and then yields one turn per entry, with the content trimmed. -/
theorem parseLines_serializeLog (name : List Char) :
    ∀ (es : List LogEntry), (∀ e ∈ es, WellFormedEntry e) →
    ∀ (parts : List (List Char)) (role : String) (sp : List Char),
    parseLines name (splitLines (serializeLog es)) parts role sp
      = (if parts.isEmpty then [] else [⟨sp, role, pyStrip (joinNL parts)⟩])
        ++ es.map (fun e => ⟨e.speaker, roleFor name e.speaker, pyStrip e.content⟩) := by
  intro es
  induction es with
  | nil =>
      intro _ parts role sp
      show parseLines name (splitLines []) parts role sp = _
      rw [splitLines_nil, parseLines_blank isBlank_nil, parseLines_nil]
      simp
  | cons e es' ih =>
      intro hwf parts role sp
      obtain ⟨hsp, hnl, hss, hml, hbl⟩ := hwf e (List.mem_cons_self _ _)
      have hwf' : ∀ x ∈ es', WellFormedEntry x :=
        fun x hx => hwf x (List.mem_cons_of_mem e hx)
      obtain ⟨c0, ct, hc⟩ : ∃ c0 ct, splitLines e.content = c0 :: ct := by
        cases hsl : splitLines e.content with
        | nil => exact absurd hsl (splitLines_ne_nil e.content)
        | cons a t => exact ⟨a, t, rfl⟩
      have hser : serializeLog (e :: es') = '\n' :: '\n' ::
          (( '*' :: '*' :: (e.speaker ++ ['*', '*', ':', ' ']))
            ++ (e.content ++ '\n' :: serializeLog es')) := by
        show serializeEntry e ++ serializeLog es' = _
        simp [serializeEntry]
      have hpnl : '\n' ∉ '*' :: '*' :: (e.speaker ++ ['*', '*', ':', ' ']) := by
        intro hmem
        rcases List.mem_cons.mp hmem with h1 | h1
        · exact absurd h1.symm (by decide)
        rcases List.mem_cons.mp h1 with h2 | h2
        · exact absurd h2.symm (by decide)
        rcases List.mem_append.mp h2 with h3 | h3
        · exact hnl h3
        · revert h3; decide
      have hlines : splitLines (serializeLog (e :: es'))
          = [] :: [] ::
            (( '*' :: '*' :: (e.speaker ++ ['*', '*', ':', ' '])) ++ c0)
              :: (ct ++ splitLines (serializeLog es')) := by
        rw [hser, splitLines_cons_newline, splitLines_cons_newline,
          splitLines_prefix_no_newline _ _ hpnl, splitLines_append, hc]
        rw [List.cons_append]
        simp
      have hmarkline : (( '*' :: '*' :: (e.speaker ++ ['*', '*', ':', ' '])) ++ c0)
          = '*' :: '*' :: (e.speaker ++ '*' :: '*' :: ':' :: ' ' :: c0) := by
        simp
      rw [hlines, parseLines_blank isBlank_nil, parseLines_blank isBlank_nil,
        hmarkline,
        parseLines_marker (isBlank_cons_star _)
          (matchMarker_serialized e.speaker c0 hsp hss),
        parseLines_content_append name ct
          (fun l hl => ⟨hbl l (by rw [hc]; exact hl),
            hml l (by rw [hc]; exact List.mem_cons_of_mem c0 hl)⟩),
        ih hwf' (([c0] ++ ct)) (roleFor name e.speaker) e.speaker]
      have hjoin : pyStrip (joinNL (c0 :: ct)) = pyStrip e.content := by
        rw [← hc, joinNL_splitLines]
      rw [List.map_cons]
      simp only [List.singleton_append, List.isEmpty_cons, hjoin]
      simp

theorem prefixOf_true {l₁ l₂ : List Char} (h : l₁ <+: l₂) :
    l₁.isPrefixOf l₂ = true := by
  induction l₁ generalizing l₂ with
  | nil => simp [List.isPrefixOf]
  | cons a t ih =>
      obtain ⟨u, rfl⟩ := h
      rw [List.cons_append]
      show (a == a && t.isPrefixOf (t ++ u)) = true
      simp [ih ⟨u, rfl⟩]

theorem dropWhile_append_of_ne_nil {p : Char → Bool} {x : List Char}
    (y : List Char) (h : x.dropWhile p ≠ []) :
    (x ++ y).dropWhile p = x.dropWhile p ++ y := by
  rw [List.dropWhile_append, if_neg (by simpa using h)]

theorem dropWhile_append_of_all {p : Char → Bool} {x : List Char}
    (y : List Char) (h : x.all p = true) :
    (x ++ y).dropWhile p = y.dropWhile p := by
  rw [List.dropWhile_append, if_pos]
  rw [List.isEmpty_iff, List.dropWhile_eq_nil_iff]
  exact fun a ha => (List.all_eq_true.mp h) a ha

theorem dropWhile_ws_ne_nil {l : List Char} (h : isBlank l = false) :
    l.dropWhile isSpaceChar ≠ [] := by
  intro hnil
  rw [isBlank_eq_false_iff] at h
  exact h (List.all_eq_true.mpr (List.dropWhile_eq_nil_iff.mp hnil))

theorem mem_of_mem_dropWhile {p : Char → Bool} {a : Char} {l : List Char}
    (h : a ∈ l.dropWhile p) : a ∈ l :=
  (List.dropWhile_suffix p).sublist.mem h

theorem star_mem_selfMarker (name : List Char) : '*' ∈ selfMarker name :=
  List.mem_cons_self _ _

/-- If `l` is the last non-blank line of `h` and `l` begins with the
agent's own `**name**` marker, then the guard in `BaseAgent.process`
fires. -/
theorem guardTrips_of_lastNonBlank (name h l : List Char)
    (hl : IsLastNonBlankLine h l) (hm : selfMarker name <+: l) :
    guardTrips name h = true := by
  obtain ⟨a, b, rfl, hnl, hnb, ha, hball, hbh⟩ := hl
  obtain ⟨r, rfl⟩ := hm
  rw [List.append_assoc]
  set m := selfMarker name with hmdef
  set ws := isSpaceChar with hwsdef
  have hwstar : ws '*' = false := rfl
  have hmr_cons : ∃ t, (m ++ r) ++ b = '*' :: t := by
    refine ⟨( '*' :: (name ++ ['*', '*'])) ++ r ++ b, ?_⟩
    rw [hmdef]; simp [selfMarker]
  -- strip the left end: leading whitespace never reaches into `l`
  have h1 : ((a ++ ((m ++ r) ++ b)).dropWhile ws)
      = a.dropWhile ws ++ ((m ++ r) ++ b) := by
    obtain ⟨t, ht⟩ := hmr_cons
    rw [List.dropWhile_append]
    split_ifs with hcond
    · rw [List.isEmpty_iff] at hcond
      rw [hcond, ht, List.dropWhile_cons, hwstar]
      simp
    · rfl
  -- strip the right end: it eats all of `b` and stops inside `l`
  have hDne : (m ++ r).reverse.dropWhile ws ≠ [] := by
    intro hnil
    have := List.dropWhile_eq_nil_iff.mp hnil '*'
      (List.mem_reverse.mpr (List.mem_append_left r (star_mem_selfMarker name)))
    rw [hwstar] at this
    exact Bool.false_ne_true this
  have h2 : pyStrip (a ++ ((m ++ r) ++ b))
      = a.dropWhile ws ++ ((m ++ r).reverse.dropWhile ws).reverse := by
    unfold pyStrip
    rw [h1, List.reverse_append, List.reverse_append,
      List.append_assoc,
      dropWhile_append_of_all _ (by rw [List.all_reverse]; exact hball),
      dropWhile_append_of_ne_nil _ hDne]
    simp
  set D := (m ++ r).reverse.dropWhile ws with hDdef
  have hDprefix : m <+: D.reverse := by
    rw [hDdef, List.reverse_append]
    rw [List.dropWhile_append]
    split_ifs with hcond
    · have hmrev : ∃ t, m.reverse = '*' :: t := by
        refine ⟨( '*' :: name.reverse) ++ ['*', '*'], ?_⟩
        rw [hmdef]
        simp [selfMarker]
      obtain ⟨t, ht⟩ := hmrev
      rw [ht, List.dropWhile_cons, hwstar]
      simp only [Bool.false_eq_true, if_false]
      rw [← ht, List.reverse_reverse]
    · rw [List.reverse_append, List.reverse_reverse]
      exact List.prefix_append m _
  have hDnl : '\n' ∉ D.reverse := by
    intro hmem
    rw [List.mem_reverse, hDdef] at hmem
    have := List.mem_reverse.mp (mem_of_mem_dropWhile hmem)
    exact hnl this
  -- now compute the last line of the stripped history
  rcases Decidable.em (a.dropWhile ws = []) with hdwa | hdwa
  · have hstrip : pyStrip (a ++ ((m ++ r) ++ b)) = D.reverse := by
      rw [h2, hdwa]; simp
    rw [guardTrips, hstrip, splitLines_no_newline _ hDnl]
    simp only [List.isEmpty_cons, Bool.not_false, Bool.true_and,
      List.getLastD]
    exact prefixOf_true hDprefix
  · have hane : a ≠ [] := by
      intro hae; rw [hae] at hdwa; exact hdwa rfl
    have halast : a.getLast? = some '\n' := by
      rcases ha with hae | hal
      · exact absurd hae hane
      · exact hal
    have hdwalast : (a.dropWhile ws).getLast? = some '\n' := by
      obtain ⟨t, ht⟩ := List.dropWhile_suffix (l := a) ws
      rw [← ht, List.getLast?_append] at halast
      rcases hg : (a.dropWhile ws).getLast? with _ | d
      · exact absurd (List.getLast?_eq_none_iff.mp hg) hdwa
      · rw [hg] at halast
        simp only [Option.or] at halast
        exact halast
    obtain ⟨da, hda⟩ : ∃ da, a.dropWhile ws = da ++ ['\n'] := by
      refine ⟨(a.dropWhile ws).dropLast, ?_⟩
      have hgl : (a.dropWhile ws).getLast hdwa = '\n' := by
        have := List.getLast?_eq_getLast (a.dropWhile ws) hdwa
        rw [hdwalast] at this
        exact (Option.some.injEq _ _).mp this.symm
      conv_lhs => rw [← List.dropLast_append_getLast hdwa]
      rw [hgl]
    have hstrip : pyStrip (a ++ ((m ++ r) ++ b))
        = da ++ '\n' :: D.reverse := by
      rw [h2, hda]; simp
    rw [guardTrips, hstrip, splitLines_append, splitLines_no_newline _ hDnl]
    simp only [List.getLastD_concat]
    have hne2 : splitLines da ++ [D.reverse] ≠ [] := by simp
    rw [List.isEmpty_eq_false.mpr hne2]
    simp only [Bool.not_false, Bool.true_and]
    exact prefixOf_true hDprefix

/-- Trimming a three-line text whose first and last lines contain
non-whitespace keeps exactly three lines: trimming only shortens the
first and last line, never removes a newline. -/
theorem splitLines_pyStrip_three (l1 l2 l3 : List Char)
    (h1nl : '\n' ∉ l1) (h2nl : '\n' ∉ l2) (h3nl : '\n' ∉ l3)
    (hb1 : isBlank l1 = false) (hb3 : isBlank l3 = false) :
    splitLines (pyStrip (l1 ++ ('\n' :: (l2 ++ ('\n' :: l3)))))
      = [l1.dropWhile isSpaceChar, l2,
          (l3.reverse.dropWhile isSpaceChar).reverse] := by
  set ws := isSpaceChar with hwsdef
  have hd1 : l1.dropWhile ws ≠ [] := dropWhile_ws_ne_nil hb1
  have hd3 : l3.reverse.dropWhile ws ≠ [] := by
    intro hnil
    rw [isBlank_eq_false_iff] at hb3
    rw [List.dropWhile_eq_nil_iff] at hnil
    exact hb3 (List.all_eq_true.mpr
      (fun x hx => hnil x (List.mem_reverse.mpr hx)))
  have hstrip : pyStrip (l1 ++ ('\n' :: (l2 ++ ('\n' :: l3))))
      = l1.dropWhile ws ++ ('\n' :: (l2 ++ ('\n' ::
          (l3.reverse.dropWhile ws).reverse))) := by
    unfold pyStrip
    rw [dropWhile_append_of_ne_nil _ hd1]
    rw [List.reverse_append]
    have hrev1 : ('\n' :: (l2 ++ ('\n' :: l3))).reverse
        = l3.reverse ++ ('\n' :: (l2.reverse ++ ['\n'])) := by
      simp
    rw [hrev1, List.append_assoc, dropWhile_append_of_ne_nil _ hd3]
    simp
  rw [hstrip, splitLines_append]
  have h1' : '\n' ∉ l1.dropWhile ws :=
    fun hmem => h1nl (mem_of_mem_dropWhile hmem)
  have h3' : '\n' ∉ (l3.reverse.dropWhile ws).reverse := by
    intro hmem
    rw [List.mem_reverse] at hmem
    exact h3nl (List.mem_reverse.mp (mem_of_mem_dropWhile hmem))
  rw [splitLines_no_newline _ h1', splitLines_append,
    splitLines_no_newline _ h2nl, splitLines_no_newline _ h3']
  rfl

theorem le_of_prefixOf {l₁ l₂ : List Char} (h : l₁.isPrefixOf l₂ = true) :
    l₁ <+: l₂ := by
  induction l₁ generalizing l₂ with
  | nil => exact List.nil_prefix
  | cons a t ih =>
      cases l₂ with
      | nil => simp [List.isPrefixOf] at h
      | cons b t₂ =>
          have h' : (a == b && t.isPrefixOf t₂) = true := h
          rw [Bool.and_eq_true, beq_iff_eq] at h'
          obtain ⟨u, hu⟩ := ih h'.2
          exact ⟨u, by rw [List.cons_append, hu, h'.1]⟩

theorem append_ne_nil_left {p e : List Char} (hp : p ≠ []) : p ++ e ≠ [] :=
  fun h => hp (List.append_eq_nil.mp h).1

/-! ### Claim theorems -/

/-- C1 (corrected), counterexample to the claim as stated: the entry
`{speaker := "A", content := "a\n\nb"}` satisfies the claim's stated
preconditions (its speaker has no literal `**`, no content line matches
the marker pattern), yet serialize-then-parse drops the internal blank
line: the parsed content is `"a\nb"`, not the trimmed original
`"a\n\nb"`. -/
theorem claim1_round_trip_cex :
    containsStarStar "A".data = false ∧
    (∀ l ∈ splitLines "a\n\nb".data, matchMarker l = none) ∧
    ¬ ((parseHistory "N".data
          (serializeLog [⟨"A".data, "a\n\nb".data⟩])).map
            (fun t => (t.speaker, t.content))
        = [("A".data, pyStrip "a\n\nb".data)]) := by
  decide

/-- C1 (amended): for every ordered sequence of `LogEntry` whose
speakers are non-empty, contain no newline and no literal `**`, and
whose content contains no line matching the marker pattern and no
whitespace-only line after its first line, serializing each entry (two
newlines, `**speaker**: `, the content, a trailing newline) and parsing
the concatenation reproduces the sequence exactly: same speakers in the
same order, each content equal to the original after trimming. -/
theorem claim1_round_trip (name : List Char) (es : List LogEntry)
    (h : ∀ e ∈ es, WellFormedEntry e) :
    (parseHistory name (serializeLog es)).map (fun t => (t.speaker, t.content))
      = es.map (fun e => (e.speaker, pyStrip e.content)) := by
  unfold parseHistory
  rw [parseLines_serializeLog name es h]
  simp [List.map_map]

/-- Witness for C1 at a concrete two-entry log. -/
theorem claim1_round_trip_witness :
    (∀ e ∈ ([⟨"Alice".data, "Hi there".data⟩,
             ⟨"Bob".data, "Line one\n  line two".data⟩] : List LogEntry),
        WellFormedEntry e) ∧
    (parseHistory "Bob".data
        (serializeLog [⟨"Alice".data, "Hi there".data⟩,
                       ⟨"Bob".data, "Line one\n  line two".data⟩])).map
          (fun t => (t.speaker, t.content))
      = ([⟨"Alice".data, "Hi there".data⟩,
          ⟨"Bob".data, "Line one\n  line two".data⟩] : List LogEntry).map
          (fun e => (e.speaker, pyStrip e.content)) :=
  ⟨by decide, claim1_round_trip "Bob".data _ (by decide)⟩

/-- C2: if the last non-blank line of the log begins with the acting
agent's own `**name**` marker, the cycle performs zero responder calls,
zero appends and zero pushes, and leaves the log unchanged. -/
theorem claim2_self_reply_guard (name h l : List Char)
    (respond : List Char → List Char)
    (hl : IsLastNonBlankLine h l) (hm : selfMarker name <+: l) :
    processModel name h respond = ⟨0, 0, 0, h⟩ := by
  unfold processModel
  rw [guardTrips_of_lastNonBlank name h l hl hm]
  rfl

/-- Witness for C2 at a concrete log ending in a `**Bob**:` turn. -/
theorem claim2_self_reply_guard_witness :
    IsLastNonBlankLine "intro\n**Bob**: done\n".data "**Bob**: done".data ∧
    selfMarker "Bob".data <+: "**Bob**: done".data ∧
    processModel "Bob".data "intro\n**Bob**: done\n".data
        (fun _ => "reply".data)
      = ⟨0, 0, 0, "intro\n**Bob**: done\n".data⟩ :=
  ⟨⟨"intro\n".data, "\n".data, by decide, by decide, by decide, by decide,
    by decide, by decide⟩,
   by decide,
   claim2_self_reply_guard "Bob".data _ "**Bob**: done".data _
     ⟨"intro\n".data, "\n".data, by decide, by decide, by decide, by decide,
      by decide, by decide⟩
     (by decide)⟩

/-- C3: a provider/network failure (`.error e`) in any of the three
Responder adapters is converted into a non-empty error-describing
string (the adapters are total, they do not raise), and — the guard not
having tripped — the cycle appends that string to the log and publishes
it like an ordinary reply instead of aborting. -/
theorem claim3_responder_error_published (name h e k : List Char)
    (hg : guardTrips name h = false) (hk : k ≠ []) :
    deepGenerateResponse name h (fun _ => .error e)
      = "Error communicating with Deep Agent: ".data ++ e ∧
    deepGenerateResponse name h (fun _ => .error e) ≠ [] ∧
    geminiRawGenerateResponse (some k) (.error e) = "Error: ".data ++ e ∧
    geminiRawGenerateResponse (some k) (.error e) ≠ [] ∧
    julesGenerateResponse (.error e) = "Error: ".data ++ e ∧
    julesGenerateResponse (.error e) ≠ [] ∧
    processModel name h (fun hist => deepGenerateResponse name hist
        (fun _ => .error e))
      = ⟨1, 1, 1, h ++ serializeEntry
          ⟨name, "Error communicating with Deep Agent: ".data ++ e⟩⟩ ∧
    processModel name h (fun _ => geminiRawGenerateResponse (some k) (.error e))
      = ⟨1, 1, 1, h ++ serializeEntry ⟨name, "Error: ".data ++ e⟩⟩ ∧
    processModel name h (fun _ => julesGenerateResponse (.error e))
      = ⟨1, 1, 1, h ++ serializeEntry ⟨name, "Error: ".data ++ e⟩⟩ := by
  have hgem : geminiRawGenerateResponse (some k) (.error e)
      = "Error: ".data ++ e := by
    obtain ⟨c, t, rfl⟩ : ∃ c t, k = c :: t := by
      cases k with
      | nil => exact absurd rfl hk
      | cons c t => exact ⟨c, t, rfl⟩
    rfl
  have hne1 : ("Error communicating with Deep Agent: ".data ++ e : List Char)
      ≠ [] := append_ne_nil_left (by decide)
  have hne2 : ("Error: ".data ++ e : List Char) ≠ [] :=
    append_ne_nil_left (by decide)
  refine ⟨rfl, hne1, hgem, hgem ▸ hne2, rfl, hne2, ?_, ?_, ?_⟩
  · unfold processModel
    rw [hg]
    simp only [Bool.false_eq_true, if_false]
    rw [show deepGenerateResponse name h (fun _ => .error e)
        = "Error communicating with Deep Agent: ".data ++ e from rfl]
    rw [List.isEmpty_eq_false.mpr hne1]
    rfl
  · unfold processModel
    rw [hg]
    simp only [Bool.false_eq_true, if_false]
    rw [hgem, List.isEmpty_eq_false.mpr hne2]
    rfl
  · unfold processModel
    rw [hg]
    simp only [Bool.false_eq_true, if_false]
    rw [show julesGenerateResponse (.error e) = "Error: ".data ++ e from rfl]
    rw [List.isEmpty_eq_false.mpr hne2]
    rfl

/-- Witness for C3 at a concrete history and error message. -/
theorem claim3_responder_error_published_witness :
    guardTrips "Bob".data "\n\n**Alice**: Hi\n".data = false ∧
    ("key".data : List Char) ≠ [] ∧
    processModel "Bob".data "\n\n**Alice**: Hi\n".data
        (fun _ => julesGenerateResponse (.error "timeout".data))
      = ⟨1, 1, 1, "\n\n**Alice**: Hi\n".data ++ serializeEntry
          ⟨"Bob".data, "Error: ".data ++ "timeout".data⟩⟩ :=
  ⟨by decide, by decide,
   (claim3_responder_error_published "Bob".data "\n\n**Alice**: Hi\n".data
     "timeout".data "key".data (by decide) (by decide)).2.2.2.2.2.2.2.2⟩

/-- C4: whenever the Responder returns the no-reply sentinel (the empty
string), the cycle performs zero appends and zero pushes and leaves the
log unchanged; Jules additionally maps the literal `[NO REPLY]` to the
sentinel. -/
theorem claim4_no_reply_sentinel (name h : List Char)
    (respond : List Char → List Char) (hr : respond h = []) :
    (processModel name h respond).appends = 0 ∧
    (processModel name h respond).pushes = 0 ∧
    (processModel name h respond).log = h ∧
    (∀ raw, pyStrip raw = "[NO REPLY]".data →
        julesGenerateResponse (.ok raw) = []) := by
  have hp : processModel name h respond
      = if guardTrips name h then ⟨0, 0, 0, h⟩ else ⟨1, 0, 0, h⟩ := by
    unfold processModel
    rw [hr]
    rfl
  refine ⟨?_, ?_, ?_, ?_⟩
  · rw [hp]; rcases guardTrips name h <;> rfl
  · rw [hp]; rcases guardTrips name h <;> rfl
  · rw [hp]; rcases guardTrips name h <;> rfl
  · intro raw hraw
    show (if pyStrip raw = "[NO REPLY]".data then ([] : List Char)
      else pyStrip raw) = []
    rw [if_pos hraw]

/-- Witness for C4 with a responder that returns the sentinel. -/
theorem claim4_no_reply_sentinel_witness :
    ((fun _ => ([] : List Char)) "\n\n**Alice**: Hi\n".data : List Char) = [] ∧
    (processModel "Bob".data "\n\n**Alice**: Hi\n".data
        (fun _ => [])).appends = 0 ∧
    julesGenerateResponse (.ok "  [NO REPLY]  ".data) = [] :=
  ⟨rfl,
   (claim4_no_reply_sentinel "Bob".data "\n\n**Alice**: Hi\n".data
     (fun _ => []) rfl).1,
   (claim4_no_reply_sentinel "Bob".data "\n\n**Alice**: Hi\n".data
     (fun _ => []) rfl).2.2.2 "  [NO REPLY]  ".data (by decide)⟩

/-- C5 (corrected), counterexample to the claim as stated: the content
`"a\n \nb"` has exactly three lines, the middle one blank-looking
internal whitespace, yet after serialize-then-parse the turn's content
has only two lines — the parser drops the whitespace-only line. -/
theorem claim5_three_line_cex :
    (splitLines "a\n \nb".data).length = 3 ∧
    isBlank " ".data = true ∧
    (parseHistory "N".data
        (serializeLog [⟨"A".data, "a\n \nb".data⟩])).map
          (fun t => (splitLines t.content).length) = [2] := by
  decide

/-- C5 (amended): a `LogEntry` whose content consists of exactly three
lines, each containing a non-whitespace character (and none matching the
marker pattern, with a well-formed speaker), round-trips to a single
turn whose content is the trimmed original and still has exactly three
lines, with no extra leading or trailing blank lines. -/
theorem claim5_three_line_round_trip (name sp l1 l2 l3 : List Char)
    (hsp : sp ≠ []) (hspn : '\n' ∉ sp) (hss : containsStarStar sp = false)
    (h1nl : '\n' ∉ l1) (h2nl : '\n' ∉ l2) (h3nl : '\n' ∉ l3)
    (hb1 : isBlank l1 = false) (hb2 : isBlank l2 = false)
    (hb3 : isBlank l3 = false)
    (hm1 : matchMarker l1 = none) (hm2 : matchMarker l2 = none)
    (hm3 : matchMarker l3 = none) :
    parseHistory name (serializeLog [⟨sp, l1 ++ ('\n' :: (l2 ++ ('\n' :: l3)))⟩])
      = [⟨sp, roleFor name sp, pyStrip (l1 ++ ('\n' :: (l2 ++ ('\n' :: l3))))⟩] ∧
    (splitLines (pyStrip (l1 ++ ('\n' :: (l2 ++ ('\n' :: l3)))))).length = 3 := by
  have hsplit : splitLines (l1 ++ ('\n' :: (l2 ++ ('\n' :: l3))))
      = [l1, l2, l3] := by
    rw [splitLines_append, splitLines_append, splitLines_no_newline _ h1nl,
      splitLines_no_newline _ h2nl, splitLines_no_newline _ h3nl]
    rfl
  have hwf : WellFormedEntry ⟨sp, l1 ++ ('\n' :: (l2 ++ ('\n' :: l3)))⟩ := by
    refine ⟨hsp, hspn, hss, ?_, ?_⟩
    · show ∀ l ∈ splitLines (l1 ++ ('\n' :: (l2 ++ ('\n' :: l3)))),
        matchMarker l = none
      rw [hsplit]
      intro l hl
      rcases List.mem_cons.mp hl with h1 | h1
      · rw [h1]; exact hm1
      rcases List.mem_cons.mp h1 with h2 | h2
      · rw [h2]; exact hm2
      rcases List.mem_cons.mp h2 with h3 | h3
      · rw [h3]; exact hm3
      · simp at h3
    · show ∀ l ∈ (splitLines (l1 ++ ('\n' :: (l2 ++ ('\n' :: l3))))).tail,
        isBlank l = false
      rw [hsplit]
      intro l hl
      rcases List.mem_cons.mp hl with h2 | h2
      · rw [h2]; exact hb2
      rcases List.mem_cons.mp h2 with h3 | h3
      · rw [h3]; exact hb3
      · simp at h3
  constructor
  · unfold parseHistory
    rw [parseLines_serializeLog name _
      (fun x hx => by
        rcases List.mem_cons.mp hx with h1 | h1
        · rw [h1]; exact hwf
        · simp at h1)]
    rfl
  · rw [splitLines_pyStrip_three l1 l2 l3 h1nl h2nl h3nl hb1 hb3]
    rfl

/-- Witness for C5 at a concrete three-line content. -/
theorem claim5_three_line_round_trip_witness :
    parseHistory "Bob".data
        (serializeLog [⟨"A".data,
          "one".data ++ ('\n' :: (" two".data ++ ('\n' :: "three ".data)))⟩])
      = [⟨"A".data, roleFor "Bob".data "A".data,
          pyStrip ("one".data ++ ('\n' :: (" two".data ++
            ('\n' :: "three ".data))))⟩] ∧
    (splitLines (pyStrip ("one".data ++ ('\n' :: (" two".data ++
        ('\n' :: "three ".data)))))).length = 3 :=
  claim5_three_line_round_trip "Bob".data "A".data
    "one".data " two".data "three ".data
    (by decide) (by decide) (by decide) (by decide) (by decide) (by decide)
    (by decide) (by decide) (by decide) (by decide) (by decide) (by decide)

/-- C6 (corrected), counterexample to the claim as stated: GeminiRaw's
construction succeeds with a configuration that has no credential at
all, and its cycle then begins and even appends to the log (the missing
key surfaces as a published error string, not as a startup failure). -/
theorem claim6_config_fatal_cex :
    geminiRawInit [] = .ok none ∧
    julesInit [] = .ok none ∧
    (processModel "Gemini".data []
        (fun _ => geminiRawGenerateResponse none (.ok none))).responderCalls
      = 1 ∧
    (processModel "Gemini".data []
        (fun _ => geminiRawGenerateResponse none (.ok none))).appends = 1 :=
  ⟨rfl, rfl, rfl, rfl⟩

/-- C6 (amended): a missing configuration file is fatal at startup for
every agent (`_load_config` raises before any cycle can begin), and a
missing `api_key` entry is fatal at startup for DeepAgent (`KeyError` on
the config subscript); but for GeminiRaw and Jules a missing credential
is not fatal: construction succeeds and the cycle begins — GeminiRaw's
responder returns a non-empty error string which the cycle appends. -/
theorem claim6_config_fatal (cfg : List (List Char × Option (List Char)))
    (env : List Char → Option (List Char))
    (name h : List Char) (outcome : Except (List Char) (Option (List Char)))
    (hmiss : dictGet cfg "api_key".data = none)
    (hg : guardTrips name h = false) :
    loadConfig none env = .error "Config file not found".data ∧
    deepAgentInit cfg = .error "KeyError: api_key".data ∧
    geminiRawInit cfg = .ok none ∧
    julesInit cfg = .ok none ∧
    (processModel name h
        (fun _ => geminiRawGenerateResponse none outcome)).responderCalls
      = 1 ∧
    (processModel name h
        (fun _ => geminiRawGenerateResponse none outcome)).appends = 1 := by
  have hproc : processModel name h
      (fun _ => geminiRawGenerateResponse none outcome)
      = ⟨1, 1, 1, h ++ serializeEntry
          ⟨name, "Error: Missing GEMINI_API_KEY".data⟩⟩ := by
    unfold processModel
    rw [hg]
    rfl
  refine ⟨rfl, ?_, ?_, ?_, ?_, ?_⟩
  · unfold deepAgentInit
    rw [hmiss]
  · unfold geminiRawInit
    rw [hmiss]
    rfl
  · unfold julesInit
    rw [hmiss]
    rfl
  · rw [hproc]
  · rw [hproc]

/-- Witness for C6 at a concrete credential-free configuration. -/
theorem claim6_config_fatal_witness :
    dictGet [("name".data, some "G".data)] "api_key".data = none ∧
    guardTrips "G".data "hello".data = false ∧
    deepAgentInit [("name".data, some "G".data)]
      = .error "KeyError: api_key".data ∧
    geminiRawInit [("name".data, some "G".data)] = .ok none ∧
    (processModel "G".data "hello".data
        (fun _ => geminiRawGenerateResponse none (.error "net".data))).appends
      = 1 :=
  ⟨by decide, by decide,
   (claim6_config_fatal [("name".data, some "G".data)] (fun _ => none)
     "G".data "hello".data (.error "net".data) (by decide) (by decide)).2.1,
   (claim6_config_fatal [("name".data, some "G".data)] (fun _ => none)
     "G".data "hello".data (.error "net".data) (by decide) (by decide)).2.2.1,
   (claim6_config_fatal [("name".data, some "G".data)] (fun _ => none)
     "G".data "hello".data (.error "net".data) (by decide)
     (by decide)).2.2.2.2.2⟩

/-- C7: parsing the two-turn log with acting name "Bob" yields exactly
Alice's turn (role `other`, rendered by the code as `"user"`) and Bob's
turn (role `self`, rendered as `"assistant"`) in order; the self-reply
guard on this log trips for "Bob" and not for "Alice". -/
theorem claim7_two_turn_scenario :
    parseHistory "Bob".data "\n\n**Alice**: Hi\n\n\n**Bob**: Hello back\n".data
      = [⟨"Alice".data, "user", "Hi".data⟩,
         ⟨"Bob".data, "assistant", "Hello back".data⟩] ∧
    guardTrips "Bob".data "\n\n**Alice**: Hi\n\n\n**Bob**: Hello back\n".data
      = true ∧
    guardTrips "Alice".data "\n\n**Alice**: Hi\n\n\n**Bob**: Hello back\n".data
      = false := by
  decide

/-- C8: parsing the empty log yields no turns, in which case DeepAgent
invokes the Responder with the single seeded default greeting message
`{"role": "user", "content": "Hello."}` and completes normally. -/
theorem claim8_empty_log_seed (name : List Char) :
    parseHistory name [] = [] ∧
    deepBuildMessages name [] = [⟨"user", "Hello.".data⟩] ∧
    ∀ reply : List Char,
      deepGenerateResponse name [] (fun _ => .ok reply) = reply :=
  ⟨rfl, rfl, fun _ => rfl⟩

/-- C9 (code bug): the claim says stored artifacts are immutable — and
`store_artifact`'s own docstring says "Store an immutable artifact" —
but the implementation calls `write_text` unconditionally, so a second
store to the same `(job_id, filename)` silently overwrites the first:
after storing `"v1"` then `"v2"`, the artifact reads back as `"v2"`. -/
theorem claim9_artifact_overwrite :
    readArtifact
        (storeArtifact
          (storeArtifact [] "job1".data "main.py".data "v1".data)
          "job1".data "main.py".data "v2".data)
        "job1".data "main.py".data
      = some "v2".data ∧
    ("v2".data : List Char) ≠ "v1".data := by
  exact ⟨rfl, by decide⟩

/-- C10: a config value that is a string starting with `os.environ/` is
replaced by the value of the named environment variable (the part after
the first slash, i.e. everything after the 11-character placeholder
prefix), and by `None` when the variable is unset; the placeholder is
never kept and an unset variable raises no error. -/
theorem claim10_env_resolution (env : List Char → Option (List Char))
    (s : List Char) (hp : ("os.environ/".data).isPrefixOf s = true) :
    afterFirstSlash s = s.drop 11 ∧
    (∀ v, env (afterFirstSlash s) = some v →
        resolveEnvVars env (.str s) = .str v) ∧
    (env (afterFirstSlash s) = none →
        resolveEnvVars env (.str s) = .vnone) := by
  obtain ⟨t, rfl⟩ := le_of_prefixOf hp
  have hafter : afterFirstSlash ("os.environ/".data ++ t) = t := rfl
  refine ⟨rfl, ?_, ?_⟩
  · intro v hv
    show (if ("os.environ/".data).isPrefixOf ("os.environ/".data ++ t) = true
      then match env (afterFirstSlash ("os.environ/".data ++ t)) with
        | some v => ConfigValue.str v
        | none => ConfigValue.vnone
      else ConfigValue.str ("os.environ/".data ++ t)) = ConfigValue.str v
    rw [hafter] at hv
    rw [if_pos hp, hafter, hv]
  · intro hv
    show (if ("os.environ/".data).isPrefixOf ("os.environ/".data ++ t) = true
      then match env (afterFirstSlash ("os.environ/".data ++ t)) with
        | some v => ConfigValue.str v
        | none => ConfigValue.vnone
      else ConfigValue.str ("os.environ/".data ++ t)) = ConfigValue.vnone
    rw [hafter] at hv
    rw [if_pos hp, hafter, hv]

/-- Witness for C10: `os.environ/GEMINI_API_KEY` resolves to the
variable's value when set, and to `None` under an empty environment. -/
theorem claim10_env_resolution_witness :
    ("os.environ/".data).isPrefixOf "os.environ/GEMINI_API_KEY".data = true ∧
    resolveEnvVars
        (fun n => if n = "GEMINI_API_KEY".data then some "sk-123".data else none)
        (.str "os.environ/GEMINI_API_KEY".data)
      = .str "sk-123".data ∧
    resolveEnvVars (fun _ => none)
        (.str "os.environ/GEMINI_API_KEY".data)
      = .vnone :=
  ⟨by decide,
   (claim10_env_resolution
     (fun n => if n = "GEMINI_API_KEY".data then some "sk-123".data else none)
     "os.environ/GEMINI_API_KEY".data (by decide)).2.1
     "sk-123".data (by decide),
   (claim10_env_resolution (fun _ => none)
     "os.environ/GEMINI_API_KEY".data (by decide)).2.2 rfl⟩

end Hivemind
